import Mathlib

/-!
Verification development for the MaiBot bootstrap / service-orchestration
layer (`src/main.py`).

The file gives a shallow embedding of the orchestrator:

* `MainSystem._init_components` — a strictly sequential run of collaborator
  calls (`init_components` below), each call either finishing normally or
  raising, with the first raise aborting the rest and propagating;
* `MainSystem.initialize` — `await asyncio.gather(self._init_components())`
  followed by the completion banner (`systemInit` below);
* `MainSystem.schedule_tasks` — the `while True` loop that starts the three
  persistent services and awaits `asyncio.gather` on them
  (`schedule_tasks` below);
* `main()` — `asyncio.gather(system.initialize(), system.schedule_tasks())`,
  modelled by interleavings of the two tasks' event sequences
  (`mainExecution` below).

Executions are modelled as lists of events.  External collaborators are
opaque: an environment `fails : Action → Bool` says which collaborator calls
raise, and a `Cycle` says how each persistent service behaves in one
iteration of the host loop (returns, raises, or runs forever).
-/

namespace MaiBot

/-- The atomic collaborator calls performed by `MainSystem._init_components`,
one constructor per call site, in source order. -/
inductive Action
  /-- Models `await async_task_manager.add_task(OnlineTimeRecordTask())`. -/
  | addOnlineTimeTask
  /-- Models `await async_task_manager.add_task(StatisticOutputTask())`. -/
  | addStatisticTask
  /-- Models `await async_task_manager.add_task(TelemetryHeartBeatTask())`. -/
  | addTelemetryTask
  /-- Models `lpmm_start_up()`. -/
  | lpmmStartUp
  /-- Models `plugin_manager.load_all_plugins()`. -/
  | loadAllPlugins
  /-- Models the emoji-manager initialization call of `get_emoji_manager()`. -/
  | emojiInit
  /-- Models `await mood_manager.start()`. -/
  | moodStart
  /-- Models the chat-manager initialization, `await` of its private init method. -/
  | chatInit
  /-- Models `asyncio.create_task(get_chat_manager()._auto_save_task())`. -/
  | createAutoSaveTask
  /-- Models `self.app.register_message_handler(chat_bot.message_process)`. -/
  | registerMessageHandler
  /-- Models the call of `register_custom_message_handler` on `self.app`. -/
  | registerCustomMessageHandler
  /-- Models `await check_and_run_migrations()`. -/
  | runMigrations
  /-- Models the `ON_START` event emission by `events_manager.handle_mai_events`. -/
  | emitOnStart
  /-- the final `try: init_time = int(1000 * (time.time() - init_start_time));
  logger.info(...)` block (its failure is logged and re-raised) -/
  | logInitTime
deriving DecidableEq, Repr

/-- Events observable in a bootstrap execution. -/
inductive Ev
  /-- the call `a` begins -/
  | start (a : Action)
  /-- the call `a` finished normally -/
  | fin (a : Action)
  /-- the call `a` raised -/
  | err (a : Action)
  /-- the elapsed-time report, carrying the reported milliseconds -/
  | logTime (ms : Int)
  /-- the completion banner printed by `MainSystem.initialize` -/
  | bannerLog
deriving DecidableEq, Repr

/-- Trace of a strictly sequential run of collaborator calls, as a block of
sequential `await`/call statements executes in Python: each call starts only
after the previous one finished, and the first call that raises ends the
block (the exception propagates, so nothing after it runs). -/
def runSeqTrace : List Action → (Action → Bool) → List Ev
  | [], _ => []
  | a :: rest, fails =>
    if fails a then [Ev.start a, Ev.err a]
    else Ev.start a :: Ev.fin a :: runSeqTrace rest fails

/-- Whether a strictly sequential run of the given calls completes without
an exception. -/
def runSeqOk : List Action → (Action → Bool) → Bool
  | [], _ => true
  | a :: rest, fails => if fails a then false else runSeqOk rest fails

/-- The calls of `MainSystem._init_components` before the final timing
report, in source order. -/
def initSteps : List Action :=
  [.addOnlineTimeTask, .addStatisticTask, .addTelemetryTask, .lpmmStartUp,
   .loadAllPlugins, .emojiInit, .moodStart, .chatInit, .createAutoSaveTask,
   .registerMessageHandler, .registerCustomMessageHandler, .runMigrations,
   .emitOnStart]

/-- The spec's phase-1 initializations: the recurring-task registrations,
knowledge-base startup, plugin loading, emoji-subsystem initialization,
mood-subsystem startup, chat-stream-manager initialization and the launch of
the auto-save side task. -/
def phase1Steps : List Action :=
  [.addOnlineTimeTask, .addStatisticTask, .addTelemetryTask, .lpmmStartUp,
   .loadAllPlugins, .emojiInit, .moodStart, .chatInit, .createAutoSaveTask]

/-- The bootstrap initializations of phases 1–3: everything before the
`ON_START` lifecycle event. -/
def phase123Steps : List Action :=
  [.addOnlineTimeTask, .addStatisticTask, .addTelemetryTask, .lpmmStartUp,
   .loadAllPlugins, .emojiInit, .moodStart, .chatInit, .createAutoSaveTask,
   .registerMessageHandler, .registerCustomMessageHandler, .runMigrations]

/-- Embedding of `MainSystem._init_components(self)`: run the thirteen collaborator calls
strictly in order; if they all finish, run the timing block, which reads the
clock a second time (`t1`; `t0` is the reading of `time.time()` at entry),
logs `int(1000 * (t1 - t0))` and re-raises any failure of its own.
The result is the event trace and whether the coroutine completed without an
exception. -/
def init_components (fails : Action → Bool) (t0 t1 : Int) : List Ev × Bool :=
  if runSeqOk initSteps fails then
    if fails .logInitTime then
      (runSeqTrace initSteps fails ++ [Ev.start .logInitTime, Ev.err .logInitTime], false)
    else
      (runSeqTrace initSteps fails ++
        [Ev.start .logInitTime, Ev.logTime (1000 * (t1 - t0)), Ev.fin .logInitTime], true)
  else (runSeqTrace initSteps fails, false)

/-- Embedding of the `MainSystem` startup method: `await asyncio.gather(self._init_components())`
— a gather of the single bootstrap coroutine, whose exception propagates —
then the completion banner is logged. -/
def systemInit (fails : Action → Bool) (t0 t1 : Int) : List Ev × Bool :=
  if (init_components fails t0 t1).2 then ((init_components fails t0 t1).1 ++ [Ev.bannerLog], true)
  else init_components fails t0 t1

/-- The trace of a sequence of calls in which every call finishes normally. -/
def seqBlock : List Action → List Ev
  | [] => []
  | a :: rest => Ev.start a :: Ev.fin a :: seqBlock rest

/-- Index of the first occurrence of an element in a list. -/
def idxOf {α : Type} [DecidableEq α] : List α → α → Option Nat
  | [], _ => none
  | x :: xs, a => if x = a then some 0 else (idxOf xs a).map (· + 1)

/-- Predicate `beforeB tr x y`: both events occur in `tr` and the first occurrence of
`x` is strictly before the first occurrence of `y`. -/
def beforeB {α : Type} [DecidableEq α] (tr : List α) (x y : α) : Bool :=
  match idxOf tr x, idxOf tr y with
  | some i, some j => decide (i < j)
  | _, _ => false

/-- Predicate `onlyAfterB tr x y`: if `x` occurs in `tr` at all, then `y` occurs
strictly before it. -/
def onlyAfterB {α : Type} [DecidableEq α] (tr : List α) (x y : α) : Bool :=
  match idxOf tr x with
  | none => true
  | some i =>
    match idxOf tr y with
    | none => false
    | some j => decide (j < i)

/-- Predicate `orderedAfter tr (a, b)`: the call `a` starts only after the call `b`
has finished. -/
def orderedAfter (tr : List Ev) (p : Action × Action) : Bool :=
  onlyAfterB tr (Ev.start p.1) (Ev.fin p.2)

/-- The environment in which every collaborator call succeeds. -/
def noFail : Action → Bool := fun _ => false

/-- The environment in which exactly the call `b` raises. -/
def failOnly (b : Action) : Action → Bool := fun a => decide (a = b)

/-- The executions of the `_init_components` coroutine: it is a single
sequential coroutine with no internal concurrency, so for a given
environment it has exactly one observable event sequence. -/
def initExecutions (fails : Action → Bool) (t0 t1 : Int) : List (List Ev) :=
  [(init_components fails t0 t1).1]

/-- Events of the bootstrap proper, as opposed to the trailing timing
report: `start`/`fin`/`err` of any call other than the timing block. -/
def coreEv : Ev → Bool
  | Ev.start a => decide (a ≠ Action.logInitTime)
  | Ev.fin a => decide (a ≠ Action.logInitTime)
  | Ev.err a => decide (a ≠ Action.logInitTime)
  | Ev.logTime _ => false
  | Ev.bannerLog => false

/-- The behaviourally relevant part of a trace: everything except the
reported elapsed-time value. -/
def scrub (tr : List Ev) : List Ev :=
  tr.filter fun e => match e with
    | Ev.logTime _ => false
    | _ => true

/-! ### The service host loop (`MainSystem.schedule_tasks`) -/

/-- The three persistent services started on every iteration of the host
loop. -/
inductive Svc
  /-- Models the emoji periodic-check service started by `get_emoji_manager()`. -/
  | emoji
  /-- Models `self.app.run()` — the inbound message server. -/
  | app
  /-- Models `self.server.run()` — the control server. -/
  | server
deriving DecidableEq, Repr

/-- How a persistent service behaves during one iteration of the host loop. -/
inductive Outcome
  /-- the service task returns normally -/
  | ret
  /-- the service task raises an exception -/
  | raises
  /-- the service task keeps running and never completes -/
  | forever
deriving DecidableEq, Repr

/-- The behaviour of the three services during one iteration of the host
loop that is actually reached. -/
structure Cycle where
  emoji : Outcome
  app : Outcome
  server : Outcome
deriving DecidableEq, Repr

/-- Events observable from the host loop. -/
inductive SEv
  /-- the service task `s` is created and starts running -/
  | startSvc (s : Svc)
deriving DecidableEq, Repr

/-- The three service starts of one loop iteration, in source order. -/
def cycleStarts : List SEv := [.startSvc .emoji, .startSvc .app, .startSvc .server]

/-- Some service raises during this iteration, so `await asyncio.gather`
re-raises (even if another service is still running). -/
def CycleRaises (c : Cycle) : Prop :=
  c.emoji = .raises ∨ c.app = .raises ∨ c.server = .raises

instance (c : Cycle) : Decidable (CycleRaises c) := by unfold CycleRaises; infer_instance

/-- All three services return normally, so `await asyncio.gather` completes
and the `while True` loop re-enters. -/
def CycleAllRet (c : Cycle) : Prop :=
  c.emoji = .ret ∧ c.app = .ret ∧ c.server = .ret

instance (c : Cycle) : Decidable (CycleAllRet c) := by unfold CycleAllRet; infer_instance

/-- Some service task exits during this iteration, i.e. it completes at all
(returns or raises) instead of running forever. -/
def CycleHasExit (c : Cycle) : Prop :=
  c.emoji ≠ .forever ∨ c.app ≠ .forever ∨ c.server ≠ .forever

instance (c : Cycle) : Decidable (CycleHasExit c) := by unfold CycleHasExit; infer_instance

/-- The state the host loop is left in after the supplied iterations. -/
inductive SchedStatus
  /-- every supplied iteration's gather completed; the loop is live and about
  to start the services again -/
  | looping
  /-- some service neither returned nor raised, so `await asyncio.gather`
  never completes and the loop sits inside it forever -/
  | blocked
  /-- some service raised, so gather re-raised and the exception left
  `schedule_tasks` -/
  | raised
deriving DecidableEq, Repr

/-- Embedding of `MainSystem.schedule_tasks(self)`: `while True`, build the list of the
three service coroutines and `await asyncio.gather(*tasks)`.  The `i`-th
`Cycle` describes the services' behaviour in the `i`-th iteration that is
reached: gather re-raises as soon as some service raises; it completes (and
the loop re-enters) only when all three return; otherwise it waits forever. -/
def schedule_tasks : List Cycle → List SEv × SchedStatus
  | [] => ([], .looping)
  | c :: rest =>
    if CycleRaises c then (cycleStarts, .raised)
    else if CycleAllRet c then
      (cycleStarts ++ (schedule_tasks rest).1, (schedule_tasks rest).2)
    else (cycleStarts, .blocked)

/-- Number of occurrences of an event in a host-loop trace. -/
def occCount (tr : List SEv) (e : SEv) : Nat :=
  (tr.filter fun x => decide (x = e)).length

/-- The loop re-entered at least once: some service was started a second
time. -/
def restartOccurred (tr : List SEv) : Prop :=
  2 ≤ occCount tr (SEv.startSvc .emoji)

instance (tr : List SEv) : Decidable (restartOccurred tr) := by
  unfold restartOccurred; infer_instance

/-- Repetition of the three service starts, `n` rounds. -/
def repStarts : Nat → List SEv
  | 0 => []
  | n + 1 => cycleStarts ++ repStarts n

/-! ### The top level (`main`) -/

/-- An event of an execution of `main`: either from the bootstrap task or
from the host-loop task. -/
inductive MEv
  /-- an event of `system.initialize()` -/
  | init (e : Ev)
  /-- an event of `system.schedule_tasks()` -/
  | sched (e : SEv)
deriving DecidableEq, Repr

/-- Statement that `zs` is an interleaving of the bootstrap events `xs` and the host-loop
events `ys`: projecting `zs` to either side recovers that side's sequence. -/
def isInterleaving (xs : List Ev) (ys : List SEv) (zs : List MEv) : Prop :=
  (zs.filterMap fun z => match z with | .init e => some e | .sched _ => none) = xs ∧
  (zs.filterMap fun z => match z with | .sched e => some e | .init _ => none) = ys

instance (xs : List Ev) (ys : List SEv) (zs : List MEv) :
    Decidable (isInterleaving xs ys zs) := by unfold isInterleaving; infer_instance

/-- Embedding of `main()`: `asyncio.gather(system.initialize(), system.schedule_tasks())`
runs the two tasks concurrently under cooperative scheduling, so the
observable event sequences of `main` are the interleavings of the two
tasks' own event sequences (the scheduler may switch between them at any
suspension point; no synchronisation between the two tasks exists). -/
def mainExecution (fails : Action → Bool) (t0 t1 : Int) (cycles : List Cycle)
    (zs : List MEv) : Prop :=
  isInterleaving (systemInit fails t0 t1).1 (schedule_tasks cycles).1 zs

instance (fails : Action → Bool) (t0 t1 : Int) (cycles : List Cycle) (zs : List MEv) :
    Decidable (mainExecution fails t0 t1 cycles zs) := by
  unfold mainExecution; infer_instance

/-- Whether `main` has not (yet) been aborted by an exception: gather
re-raises an exception of either `initialize` or `schedule_tasks`. -/
def mainOk (fails : Action → Bool) (t0 t1 : Int) (cycles : List Cycle) : Bool :=
  (systemInit fails t0 t1).2 && !(decide ((schedule_tasks cycles).2 = SchedStatus.raised))

/-- Predicate `noEarlySvc zs s`: if service `s` ever starts in the execution `zs`, then
message-handler registration (phase 2, ending with the custom-handler
registration) has completed before it. -/
def noEarlySvc (zs : List MEv) (s : Svc) : Bool :=
  onlyAfterB zs (MEv.sched (SEv.startSvc s))
    (MEv.init (Ev.fin Action.registerCustomMessageHandler))

/-- The two traffic-accepting services (inbound message server, control
server) never start before handler registration completed. -/
def noEarlyServe (zs : List MEv) : Bool :=
  noEarlySvc zs Svc.app && noEarlySvc zs Svc.server

/-- One host-loop iteration in which every service runs forever (the
expected steady state). -/
def foreverCycle : Cycle := ⟨.forever, .forever, .forever⟩

/-- A concrete execution of `main` in the all-services-run-forever,
no-failure world: the bootstrap task starts its first collaborator call and
suspends on its `await`; the host loop then starts its three services; the
rest of the bootstrap runs afterwards.  In it the servers start long before
handler registration. -/
def earlyServeExec : List MEv :=
  MEv.init (Ev.start Action.addOnlineTimeTask) ::
    (cycleStarts.map MEv.sched ++ ((systemInit noFail 0 0).1.drop 1).map MEv.init)

/-- The consecutive pairs (later call, earlier call) of the phase-1
initializations, in source order. -/
def phase1AdjPairs : List (Action × Action) :=
  [(.addStatisticTask, .addOnlineTimeTask), (.addTelemetryTask, .addStatisticTask),
   (.lpmmStartUp, .addTelemetryTask), (.loadAllPlugins, .lpmmStartUp),
   (.emojiInit, .loadAllPlugins), (.moodStart, .emojiInit),
   (.chatInit, .moodStart), (.createAutoSaveTask, .chatInit)]

/-- Each phase-1 initialization starts only after its predecessor finished. -/
def seqPhase1 (tr : List Ev) : Bool := phase1AdjPairs.all (orderedAfter tr)

/-- Two host-loop iterations in which every service returns. -/
def twoRetCycles : List Cycle := [⟨.ret, .ret, .ret⟩, ⟨.ret, .ret, .ret⟩]

/-- A host-loop run in which the emoji service exits (returns) during the
first iteration while both servers keep running. -/
def exitBlockCycles : List Cycle := [⟨.ret, .forever, .forever⟩, ⟨.ret, .ret, .ret⟩]

/-! ### General lemmas about `idxOf` and the ordering predicates -/

theorem idxOf_eq_none_iff {α : Type} [DecidableEq α] {l : List α} {a : α} :
    idxOf l a = none ↔ a ∉ l := by
  induction l with
  | nil => simp [idxOf]
  | cons x xs ih =>
    by_cases hxa : x = a
    · subst hxa; simp [idxOf]
    · simp [idxOf, hxa, ih, Ne.symm hxa]

theorem idxOf_lt_length {α : Type} [DecidableEq α] {l : List α} {a : α} {i : Nat}
    (h : idxOf l a = some i) : i < l.length := by
  induction l generalizing i with
  | nil => simp [idxOf] at h
  | cons x xs ih =>
    by_cases hxa : x = a
    · simp only [idxOf, if_pos hxa, Option.some.injEq] at h
      simp only [List.length_cons]
      omega
    · simp only [idxOf, if_neg hxa, Option.map_eq_some'] at h
      obtain ⟨j, hj, rfl⟩ := h
      have := ih hj
      simp only [List.length_cons]
      omega

theorem idxOf_append_left {α : Type} [DecidableEq α] {l : List α} {a : α} {i : Nat}
    (t : List α) (h : idxOf l a = some i) : idxOf (l ++ t) a = some i := by
  induction l generalizing i with
  | nil => simp [idxOf] at h
  | cons x xs ih =>
    by_cases hxa : x = a
    · simp only [idxOf, if_pos hxa, Option.some.injEq] at h
      simp [List.cons_append, idxOf, hxa, ← h]
    · simp only [idxOf, if_neg hxa, Option.map_eq_some'] at h
      obtain ⟨j, hj, rfl⟩ := h
      simp only [List.cons_append, idxOf, if_neg hxa, List.append_eq, ih hj,
        Option.map_some']

theorem idxOf_append_of_none {α : Type} [DecidableEq α] {l : List α} {a : α}
    (t : List α) (h : idxOf l a = none) :
    idxOf (l ++ t) a = (idxOf t a).map (· + l.length) := by
  induction l with
  | nil => simp
  | cons x xs ih =>
    by_cases hxa : x = a
    · simp [idxOf, hxa] at h
    · simp only [idxOf, if_neg hxa, Option.map_eq_none'] at h
      simp only [List.cons_append, idxOf, if_neg hxa, List.append_eq, ih h,
        Option.map_map, List.length_cons]
      cases idxOf t a with
      | none => rfl
      | some i =>
        simp only [Option.map_some', Function.comp_apply, Option.some.injEq]
        omega

theorem idxOf_isSome_of_mem {α : Type} [DecidableEq α] {l : List α} {a : α}
    (h : a ∈ l) : ∃ i, idxOf l a = some i := by
  cases hi : idxOf l a with
  | none => exact absurd h (idxOf_eq_none_iff.mp hi)
  | some i => exact ⟨i, rfl⟩

theorem idxOf_append_of_notMem {α : Type} [DecidableEq α] {l t : List α} {a : α}
    (h : a ∉ t) : idxOf (l ++ t) a = idxOf l a := by
  cases hi : idxOf l a with
  | none => rw [idxOf_append_of_none t hi, idxOf_eq_none_iff.mpr h]; rfl
  | some i => exact idxOf_append_left t hi

theorem onlyAfterB_append {α : Type} [DecidableEq α] {t : List α} {x y : α}
    (l : List α) (hx : x ∉ t) (hy : y ∉ t) :
    onlyAfterB (l ++ t) x y = onlyAfterB l x y := by
  unfold onlyAfterB
  rw [idxOf_append_of_notMem hx, idxOf_append_of_notMem hy]

theorem idxOf_mem_take {α : Type} [DecidableEq α] {l : List α} {x : α} {i : Nat}
    (h : idxOf l x = some i) : x ∈ l.take (i + 1) := by
  induction l generalizing i with
  | nil => simp [idxOf] at h
  | cons y ys ih =>
    by_cases hxy : y = x
    · subst hxy
      simp [List.take_succ_cons]
    · simp only [idxOf, if_neg hxy, Option.map_eq_some'] at h
      obtain ⟨j, hj, rfl⟩ := h
      simp only [List.take_succ_cons, List.mem_cons]
      exact Or.inr (ih hj)

theorem idxOf_notMem_take {α : Type} [DecidableEq α] {l : List α} {x : α} {j k : Nat}
    (h : idxOf l x = some j) (hk : k ≤ j) : x ∉ l.take k := by
  induction l generalizing j k with
  | nil => simp
  | cons y ys ih =>
    cases k with
    | zero => simp
    | succ k2 =>
      by_cases hxy : y = x
      · simp only [idxOf, if_pos hxy, Option.some.injEq] at h
        omega
      · simp only [idxOf, if_neg hxy, Option.map_eq_some'] at h
        obtain ⟨j2, hj2, rfl⟩ := h
        simp only [List.take_succ_cons, List.mem_cons, not_or]
        exact ⟨fun hh => hxy hh.symm, ih hj2 (by omega)⟩

/-! ### Structure of the sequential bootstrap trace -/

theorem runSeqOk_eq_true_iff (l : List Action) (fails : Action → Bool) :
    runSeqOk l fails = true ↔ ∀ a ∈ l, fails a = false := by
  induction l with
  | nil => simp [runSeqOk]
  | cons a rest ih =>
    by_cases h : fails a
    · simp [runSeqOk, h]
    · simp only [Bool.not_eq_true] at h
      simp [runSeqOk, h, ih]

theorem runSeqOk_false_of_mem {l : List Action} {fails : Action → Bool} {a : Action}
    (ha : a ∈ l) (hf : fails a = true) : runSeqOk l fails = false := by
  cases h : runSeqOk l fails
  · rfl
  · have := (runSeqOk_eq_true_iff l fails).mp h a ha
    rw [hf] at this
    cases this

theorem runSeqTrace_append (l1 l2 : List Action) (fails : Action → Bool) :
    runSeqTrace (l1 ++ l2) fails =
      if runSeqOk l1 fails then runSeqTrace l1 fails ++ runSeqTrace l2 fails
      else runSeqTrace l1 fails := by
  induction l1 with
  | nil => simp [runSeqTrace, runSeqOk]
  | cons a rest ih =>
    by_cases h : fails a
    · simp [runSeqTrace, runSeqOk, h]
    · simp only [Bool.not_eq_true] at h
      simp only [List.cons_append, runSeqTrace, runSeqOk, h, Bool.false_eq_true,
        if_false]
      by_cases hok : runSeqOk rest fails <;> simp [hok, ih]

theorem start_mem_runSeqTrace {b : Action} {l : List Action} {fails : Action → Bool}
    (h : Ev.start b ∈ runSeqTrace l fails) : b ∈ l := by
  induction l with
  | nil => simp [runSeqTrace] at h
  | cons a rest ih =>
    by_cases hf : fails a
    · simp [runSeqTrace, hf] at h
      simp [h]
    · simp only [Bool.not_eq_true] at hf
      simp only [runSeqTrace, hf, Bool.false_eq_true, if_false, List.mem_cons] at h
      rcases h with h | h | h
      · simp [Ev.start.injEq] at h
        simp [h]
      · cases h
      · exact List.mem_cons_of_mem _ (ih h)

theorem fin_mem_runSeqTrace_of_ok {a : Action} {l : List Action} {fails : Action → Bool}
    (hok : runSeqOk l fails = true) (ha : a ∈ l) :
    Ev.fin a ∈ runSeqTrace l fails := by
  induction l with
  | nil => cases ha
  | cons x rest ih =>
    by_cases hf : fails x
    · simp [runSeqOk, hf] at hok
    · simp only [Bool.not_eq_true] at hf
      simp only [runSeqOk, hf, Bool.false_eq_true, if_false] at hok
      simp only [runSeqTrace, hf, Bool.false_eq_true, if_false, List.mem_cons]
      rcases List.mem_cons.mp ha with rfl | ha2
      · exact Or.inr (Or.inl rfl)
      · exact Or.inr (Or.inr (ih hok ha2))

/-- Master ordering fact for the sequential bootstrap: if the call sequence
is `l1 ++ l2` with `a` among the earlier calls `l1` and `b` not among them,
then in every environment the call `b` starts only after `a` has finished. -/
theorem runSeq_orderedAfter (l1 l2 : List Action) (a b : Action)
    (fails : Action → Bool) (ha : a ∈ l1) (hb : b ∉ l1) :
    onlyAfterB (runSeqTrace (l1 ++ l2) fails) (Ev.start b) (Ev.fin a) = true := by
  have hbl1 : Ev.start b ∉ runSeqTrace l1 fails := fun h => hb (start_mem_runSeqTrace h)
  rw [runSeqTrace_append]
  by_cases hok : runSeqOk l1 fails
  · rw [if_pos hok]
    obtain ⟨j, hj⟩ := idxOf_isSome_of_mem (fin_mem_runSeqTrace_of_ok hok ha)
    have hjlen : j < (runSeqTrace l1 fails).length := idxOf_lt_length hj
    unfold onlyAfterB
    rw [idxOf_append_of_none _ (idxOf_eq_none_iff.mpr hbl1),
      idxOf_append_left _ hj]
    cases idxOf (runSeqTrace l2 fails) (Ev.start b) with
    | none => rfl
    | some i =>
      simp only [Option.map_some]
      have : j < i + (runSeqTrace l1 fails).length := by omega
      simp [this]
  · rw [if_neg hok]
    unfold onlyAfterB
    rw [idxOf_eq_none_iff.mpr hbl1]

/-- Master ordering fact, positional form: if `a` occurs strictly before `b`
in the call sequence `l`, then in every environment the call `b` starts only
after `a` has finished. -/
theorem runSeq_ordered_of_beforeB (l : List Action) (a b : Action)
    (fails : Action → Bool) (h : beforeB l a b = true) :
    onlyAfterB (runSeqTrace l fails) (Ev.start b) (Ev.fin a) = true := by
  unfold beforeB at h
  cases hia : idxOf l a with
  | none => rw [hia] at h; cases hib : idxOf l b <;> rw [hib] at h <;> cases h
  | some i =>
    cases hib : idxOf l b with
    | none => rw [hia, hib] at h; cases h
    | some j =>
      rw [hia, hib] at h
      have hij : i < j := of_decide_eq_true h
      have ha : a ∈ l.take (i + 1) := idxOf_mem_take hia
      have hb : b ∉ l.take (i + 1) := idxOf_notMem_take hib (by omega)
      have hsplit : l.take (i + 1) ++ l.drop (i + 1) = l := List.take_append_drop _ _
      rw [← hsplit]
      exact runSeq_orderedAfter _ _ a b fails ha hb

theorem runSeqTrace_all_ok {l : List Action} {fails : Action → Bool}
    (h : ∀ a ∈ l, fails a = false) : runSeqTrace l fails = seqBlock l := by
  induction l with
  | nil => rfl
  | cons a rest ih =>
    have ha : fails a = false := h a (List.mem_cons_self a rest)
    simp only [runSeqTrace, ha, Bool.false_eq_true, if_false, seqBlock]
    rw [ih (fun b hb => h b (List.mem_cons_of_mem a hb))]

/-! ### Structure of `_init_components` and `initialize` -/

theorem init_components_trace_eq (fails : Action → Bool) (t0 t1 : Int) :
    ∃ tail, (init_components fails t0 t1).1 = runSeqTrace initSteps fails ++ tail ∧
      ∀ x ∈ tail, coreEv x = false := by
  unfold init_components
  by_cases h1 : runSeqOk initSteps fails
  · rw [if_pos h1]
    by_cases h2 : fails .logInitTime
    · rw [if_pos h2]
      refine ⟨_, rfl, ?_⟩
      intro x hx
      simp only [List.mem_cons, List.mem_singleton, List.not_mem_nil, or_false] at hx
      rcases hx with rfl | rfl <;> rfl
    · rw [if_neg h2]
      refine ⟨_, rfl, ?_⟩
      intro x hx
      simp only [List.mem_cons, List.mem_singleton, List.not_mem_nil, or_false] at hx
      rcases hx with rfl | rfl | rfl <;> rfl
  · rw [if_neg h1]
    exact ⟨[], (List.append_nil _).symm, by intro x hx; cases hx⟩

theorem init_components_snd (fails : Action → Bool) (t0 t1 : Int) :
    (init_components fails t0 t1).2 =
      (runSeqOk initSteps fails && !fails Action.logInitTime) := by
  unfold init_components
  by_cases h1 : runSeqOk initSteps fails <;> by_cases h2 : fails .logInitTime <;>
    simp [h1, h2]

theorem systemInit_snd (fails : Action → Bool) (t0 t1 : Int) :
    (systemInit fails t0 t1).2 = (init_components fails t0 t1).2 := by
  unfold systemInit
  by_cases h : (init_components fails t0 t1).2 <;> simp [h]

/-- Appending the (non-core) timing-report tail of a trace does not change
any ordering fact about the core bootstrap calls. -/
theorem orderedAfter_strip {tail : List Ev} (l : List Ev)
    (hcore : ∀ x ∈ tail, coreEv x = false) (p : Action × Action)
    (h1 : p.1 ≠ Action.logInitTime) (h2 : p.2 ≠ Action.logInitTime) :
    orderedAfter (l ++ tail) p = orderedAfter l p := by
  unfold orderedAfter
  refine onlyAfterB_append l ?_ ?_
  · intro hmem
    have hc := hcore _ hmem
    simp only [coreEv, decide_eq_false_iff_not, not_not] at hc
    exact h1 hc
  · intro hmem
    have hc := hcore _ hmem
    simp only [coreEv, decide_eq_false_iff_not, not_not] at hc
    exact h2 hc

theorem occCount_append (l t : List SEv) (e : SEv) :
    occCount (l ++ t) e = occCount l e + occCount t e := by
  simp [occCount, List.filter_append]

/-! ### The claims -/

/-- Claim C7: in every bootstrap execution, message-handler registration on
the inbound server (`register_message_handler` and
`register_custom_message_handler`) occurs only after the chat-stream
manager's initialization and the mood subsystem's start have both
completed. -/
theorem c7_registration_after_prereqs (fails : Action → Bool) (t0 t1 : Int) :
    orderedAfter (init_components fails t0 t1).1
      (Action.registerMessageHandler, Action.chatInit) = true ∧
    orderedAfter (init_components fails t0 t1).1
      (Action.registerMessageHandler, Action.moodStart) = true ∧
    orderedAfter (init_components fails t0 t1).1
      (Action.registerCustomMessageHandler, Action.chatInit) = true ∧
    orderedAfter (init_components fails t0 t1).1
      (Action.registerCustomMessageHandler, Action.moodStart) = true := by
  obtain ⟨tail, htr, hcore⟩ := init_components_trace_eq fails t0 t1
  rw [htr]
  refine ⟨?_, ?_, ?_, ?_⟩ <;>
    (rw [orderedAfter_strip _ hcore _ (by decide) (by decide)]
     simp only [orderedAfter]
     exact runSeq_ordered_of_beforeB initSteps _ _ fails (by decide))

/-- Claim C9: the phase-1 initializations in `_init_components` execute
strictly sequentially in the fixed order online-time task, statistic task,
telemetry task, knowledge-base startup, plugin loading, emoji-manager
initialization, mood-manager start, chat-manager initialization, auto-save
task launch — each step beginning only after the previous one completed.
When none of them fails, the trace literally begins with their sequential
`start`/`fin` block (`seqBlock phase1Steps`). -/
theorem c9_phase1_sequential (fails : Action → Bool) (t0 t1 : Int)
    (h : ∀ a ∈ phase1Steps, fails a = false) :
    seqPhase1 (init_components fails t0 t1).1 = true ∧
    ∃ rest, (init_components fails t0 t1).1 = seqBlock phase1Steps ++ rest := by
  obtain ⟨tail, htr, hcore⟩ := init_components_trace_eq fails t0 t1
  constructor
  · rw [htr]
    simp only [seqPhase1, List.all_eq_true]
    intro p hp
    fin_cases hp <;>
      (rw [orderedAfter_strip _ hcore _ (by decide) (by decide)]
       simp only [orderedAfter]
       exact runSeq_ordered_of_beforeB initSteps _ _ fails (by decide))
  · rw [htr]
    rw [show initSteps = phase1Steps ++ [Action.registerMessageHandler,
      Action.registerCustomMessageHandler, Action.runMigrations, Action.emitOnStart]
      from by decide]
    rw [runSeqTrace_append, if_pos ((runSeqOk_eq_true_iff _ _).mpr h),
      runSeqTrace_all_ok h, List.append_assoc]
    exact ⟨_, rfl⟩

/-- Witness for C9 at the no-failure environment. -/
theorem c9_witness :
    (∀ a ∈ phase1Steps, noFail a = false) ∧
    (seqPhase1 (init_components noFail 0 0).1 = true ∧
     ∃ rest, (init_components noFail 0 0).1 = seqBlock phase1Steps ++ rest) :=
  ⟨by decide, c9_phase1_sequential noFail 0 0 (by decide)⟩

/-- Claim C3: the `ON_START` lifecycle event is emitted only after every
phase-1 initialization, the handler registration and the migration step have
all completed; and if the migration step fails, the start event is never
emitted and the failure propagates (out of `_init_components` and
`initialize`) as a fatal error. -/
theorem c3_on_start_last (fails : Action → Bool) (t0 t1 : Int) :
    (∀ a ∈ phase123Steps,
      orderedAfter (init_components fails t0 t1).1 (Action.emitOnStart, a) = true) ∧
    (fails Action.runMigrations = true →
      Ev.start Action.emitOnStart ∉ (init_components fails t0 t1).1 ∧
      (init_components fails t0 t1).2 = false ∧
      (systemInit fails t0 t1).2 = false) := by
  obtain ⟨tail, htr, hcore⟩ := init_components_trace_eq fails t0 t1
  constructor
  · intro a ha
    rw [htr]
    fin_cases ha <;>
      (rw [orderedAfter_strip _ hcore _ (by decide) (by decide)]
       simp only [orderedAfter]
       exact runSeq_ordered_of_beforeB initSteps _ _ fails (by decide))
  · intro hf
    have hok : runSeqOk phase123Steps fails = false :=
      runSeqOk_false_of_mem (by decide) hf
    have hok2 : runSeqOk initSteps fails = false :=
      runSeqOk_false_of_mem (by decide) hf
    refine ⟨?_, ?_, ?_⟩
    · rw [htr]
      intro hmem
      rcases List.mem_append.mp hmem with hm | hm
      · rw [show initSteps = phase123Steps ++ [Action.emitOnStart] from by decide,
          runSeqTrace_append, hok] at hm
        simp only [Bool.false_eq_true, if_false] at hm
        exact absurd (start_mem_runSeqTrace hm) (by decide)
      · have hc := hcore _ hm
        simp only [coreEv, decide_eq_false_iff_not, not_not] at hc
        cases hc
    · rw [init_components_snd, hok2]
      rfl
    · rw [systemInit_snd, init_components_snd, hok2]
      rfl

/-- Witness for C3 at the environment where exactly the migration call
raises. -/
theorem c3_witness :
    failOnly Action.runMigrations Action.runMigrations = true ∧
    Action.registerMessageHandler ∈ phase123Steps ∧
    orderedAfter (init_components (failOnly .runMigrations) 0 0).1
      (Action.emitOnStart, Action.registerMessageHandler) = true ∧
    Ev.start Action.emitOnStart ∉ (init_components (failOnly .runMigrations) 0 0).1 ∧
    (init_components (failOnly .runMigrations) 0 0).2 = false ∧
    (systemInit (failOnly .runMigrations) 0 0).2 = false :=
  ⟨by decide, by decide,
    (c3_on_start_last (failOnly .runMigrations) 0 0).1 Action.registerMessageHandler (by decide),
    ((c3_on_start_last (failOnly .runMigrations) 0 0).2 (by decide)).1,
    ((c3_on_start_last (failOnly .runMigrations) 0 0).2 (by decide)).2.1,
    ((c3_on_start_last (failOnly .runMigrations) 0 0).2 (by decide)).2.2⟩

/-- Counterexample to claim C2: the phase-1 initializations are NOT run
concurrently with no ordering among themselves.  `_init_components` is one
sequential coroutine, so it has exactly one execution per environment; in
the (unique) no-failure execution the statistic-task registration never
begins before the online-time registration has finished — the converse
order always holds. -/
theorem c2_counterexample :
    (¬ ∃ tr ∈ initExecutions noFail 0 0,
      beforeB tr (Ev.start Action.addStatisticTask) (Ev.fin Action.addOnlineTimeTask) = true) ∧
    ∀ tr ∈ initExecutions noFail 0 0,
      beforeB tr (Ev.fin Action.addOnlineTimeTask) (Ev.start Action.addStatisticTask) = true := by
  decide

/-- Claim C2 as amended: the phase-1 initializations run strictly
sequentially (each begins only after its predecessor finished, in every
environment), and the sequencer proceeds past them only if all succeed: if
any phase-1 call raises, handler registration is never reached and the
bootstrap coroutine fails. -/
theorem c2_amended_thm (fails : Action → Bool) (t0 t1 : Int) :
    seqPhase1 (init_components fails t0 t1).1 = true ∧
    ∀ a ∈ phase1Steps, fails a = true →
      Ev.start Action.registerMessageHandler ∉ (init_components fails t0 t1).1 ∧
      (init_components fails t0 t1).2 = false := by
  obtain ⟨tail, htr, hcore⟩ := init_components_trace_eq fails t0 t1
  constructor
  · rw [htr]
    simp only [seqPhase1, List.all_eq_true]
    intro p hp
    fin_cases hp <;>
      (rw [orderedAfter_strip _ hcore _ (by decide) (by decide)]
       simp only [orderedAfter]
       exact runSeq_ordered_of_beforeB initSteps _ _ fails (by decide))
  · intro a ha hf
    have hok : runSeqOk phase1Steps fails = false := runSeqOk_false_of_mem ha hf
    have hmem : a ∈ initSteps := by fin_cases ha <;> decide
    have hok2 : runSeqOk initSteps fails = false := runSeqOk_false_of_mem hmem hf
    refine ⟨?_, ?_⟩
    · rw [htr]
      intro hmem2
      rcases List.mem_append.mp hmem2 with hm | hm
      · rw [show initSteps = phase1Steps ++ [Action.registerMessageHandler,
          Action.registerCustomMessageHandler, Action.runMigrations, Action.emitOnStart]
          from by decide, runSeqTrace_append, hok] at hm
        simp only [Bool.false_eq_true, if_false] at hm
        exact absurd (start_mem_runSeqTrace hm) (by decide)
      · have hc := hcore _ hm
        simp only [coreEv, decide_eq_false_iff_not, not_not] at hc
        cases hc
    · rw [init_components_snd, hok2]
      rfl

/-- Witness for the amended C2: the unconditional sequentiality clause and,
at the environment where exactly the knowledge-base startup raises, the
fail-fast clause with its hypotheses discharged. -/
theorem c2_witness :
    Action.lpmmStartUp ∈ phase1Steps ∧
    failOnly Action.lpmmStartUp Action.lpmmStartUp = true ∧
    seqPhase1 (init_components (failOnly .lpmmStartUp) 0 0).1 = true ∧
    Ev.start Action.registerMessageHandler ∉ (init_components (failOnly .lpmmStartUp) 0 0).1 ∧
    (init_components (failOnly .lpmmStartUp) 0 0).2 = false :=
  ⟨by decide, by decide, (c2_amended_thm (failOnly .lpmmStartUp) 0 0).1,
    ((c2_amended_thm (failOnly .lpmmStartUp) 0 0).2 Action.lpmmStartUp
      (by decide) (by decide)).1,
    ((c2_amended_thm (failOnly .lpmmStartUp) 0 0).2 Action.lpmmStartUp
      (by decide) (by decide)).2⟩

/-- Claim C4: if any bootstrap initialization of phases 1–3 raises, the
error propagates out of `_init_components`, through `initialize`, and out of
`main` — bootstrap is never locally recovered. -/
theorem c4_bootstrap_failure_propagates (fails : Action → Bool) (t0 t1 : Int)
    (cycles : List Cycle) (a : Action) (ha : a ∈ phase123Steps)
    (hf : fails a = true) :
    (init_components fails t0 t1).2 = false ∧
    (systemInit fails t0 t1).2 = false ∧
    mainOk fails t0 t1 cycles = false := by
  have hmem : a ∈ initSteps := by fin_cases ha <;> decide
  have hok : runSeqOk initSteps fails = false := runSeqOk_false_of_mem hmem hf
  refine ⟨?_, ?_, ?_⟩
  · rw [init_components_snd, hok]
    rfl
  · rw [systemInit_snd, init_components_snd, hok]
    rfl
  · unfold mainOk
    rw [systemInit_snd, init_components_snd, hok]
    rfl

/-- Witness for C4 at the environment where exactly the migration call
raises. -/
theorem c4_witness :
    Action.runMigrations ∈ phase123Steps ∧
    failOnly Action.runMigrations Action.runMigrations = true ∧
    ((init_components (failOnly .runMigrations) 0 0).2 = false ∧
     (systemInit (failOnly .runMigrations) 0 0).2 = false ∧
     mainOk (failOnly .runMigrations) 0 0 [] = false) :=
  ⟨by decide, by decide,
    c4_bootstrap_failure_propagates (failOnly .runMigrations) 0 0 []
      Action.runMigrations (by decide) (by decide)⟩

/-- Claim C8: the elapsed-bootstrap-time measurement is informational only:
two runs that differ only in the clock readings have the same behaviour —
the same bootstrap events apart from the reported number (`scrub` removes
only the reported value), the same success flag, and the same top-level
outcome. -/
theorem c8_timing_informational (fails : Action → Bool) (t0 t1 s0 s1 : Int)
    (cycles : List Cycle) :
    scrub (init_components fails t0 t1).1 = scrub (init_components fails s0 s1).1 ∧
    (init_components fails t0 t1).2 = (init_components fails s0 s1).2 ∧
    mainOk fails t0 t1 cycles = mainOk fails s0 s1 cycles := by
  have hsnd : (init_components fails t0 t1).2 = (init_components fails s0 s1).2 := by
    rw [init_components_snd, init_components_snd]
  refine ⟨?_, hsnd, ?_⟩
  · by_cases h1 : runSeqOk initSteps fails
    · by_cases h2 : fails .logInitTime
      · simp [init_components, h1, h2, scrub, List.filter_append]
      · simp [init_components, h1, h2, scrub, List.filter_append]
    · simp [init_components, h1, scrub]
  · unfold mainOk
    rw [systemInit_snd, systemInit_snd, hsnd]

/-- Claim C5: on every iteration the host loop concurrently awaits exactly
the three persistent services (emoji periodic check, inbound message server,
control server, in source order), and whenever all of them return the loop
immediately re-enters and starts the same set again — each service started
exactly once per completed iteration. -/
theorem c5_host_loop_restart (cycles : List Cycle)
    (h : ∀ c ∈ cycles, CycleAllRet c) :
    (schedule_tasks cycles).1 = repStarts cycles.length ∧
    (schedule_tasks cycles).2 = SchedStatus.looping ∧
    ∀ s : Svc, occCount (schedule_tasks cycles).1 (SEv.startSvc s) = cycles.length := by
  induction cycles with
  | nil => exact ⟨rfl, rfl, fun s => rfl⟩
  | cons c rest ih =>
    have hc : CycleAllRet c := h c (List.mem_cons_self c rest)
    have hnr : ¬ CycleRaises c := by
      obtain ⟨h1, h2, h3⟩ := hc
      intro hr
      rcases hr with hr | hr | hr <;> simp_all
    obtain ⟨htr, hst, hcount⟩ := ih (fun x hx => h x (List.mem_cons_of_mem c hx))
    refine ⟨?_, ?_, ?_⟩
    · simp only [schedule_tasks, if_neg hnr, if_pos hc, List.length_cons, repStarts, htr]
    · simp only [schedule_tasks, if_neg hnr, if_pos hc, hst]
    · intro s
      simp only [schedule_tasks, if_neg hnr, if_pos hc, List.length_cons]
      rw [occCount_append, hcount s]
      have hone : occCount cycleStarts (SEv.startSvc s) = 1 := by cases s <;> rfl
      omega

/-- Witness for C5 on two all-return iterations. -/
theorem c5_witness :
    (∀ c ∈ twoRetCycles, CycleAllRet c) ∧
    ((schedule_tasks twoRetCycles).1 = repStarts twoRetCycles.length ∧
     (schedule_tasks twoRetCycles).2 = SchedStatus.looping ∧
     ∀ s : Svc, occCount (schedule_tasks twoRetCycles).1 (SEv.startSvc s) =
        twoRetCycles.length) :=
  ⟨by decide, c5_host_loop_restart twoRetCycles (by decide)⟩

/-- Counterexample to claim C6: a single service task exiting does NOT
restart the cohort.  In `exitBlockCycles` the emoji service returns in the
first iteration while both servers keep running: `asyncio.gather` never
completes, the loop never re-enters, and no service is ever started a second
time. -/
theorem c6_counterexample :
    CycleHasExit ⟨.ret, .forever, .forever⟩ ∧
    ¬ restartOccurred (schedule_tasks exitBlockCycles).1 := by
  decide

/-- Claim C6 as amended: the cohort is restarted exactly when the whole
gathered set completes, i.e. when all three services return without raising;
a single service exiting while another keeps running, or a service raising,
does not restart the cohort. -/
theorem c6_amended_thm (c c2 : Cycle) (rest : List Cycle) :
    restartOccurred (schedule_tasks (c :: c2 :: rest)).1 ↔ CycleAllRet c := by
  by_cases hr : CycleRaises c
  · have hna : ¬ CycleAllRet c := by
      obtain ⟨h1, h2, h3⟩ | _ := Classical.em (CycleAllRet c)
      · intro _
        rcases hr with hr | hr | hr <;> simp_all
      · simp_all
    simp only [schedule_tasks, if_pos hr]
    constructor
    · intro h
      exact absurd h (by decide)
    · intro h
      exact absurd h hna
  · by_cases hall : CycleAllRet c
    · have hst : schedule_tasks (c :: c2 :: rest) =
          (cycleStarts ++ (schedule_tasks (c2 :: rest)).1, (schedule_tasks (c2 :: rest)).2) := by
        rw [schedule_tasks, if_neg hr, if_pos hall]
      constructor
      · intro _
        exact hall
      · intro _
        have h2 : 1 ≤ occCount (schedule_tasks (c2 :: rest)).1 (SEv.startSvc Svc.emoji) := by
          by_cases hr2 : CycleRaises c2
          · simp only [schedule_tasks, if_pos hr2]
            decide
          · by_cases hall2 : CycleAllRet c2
            · simp only [schedule_tasks, if_neg hr2, if_pos hall2]
              rw [occCount_append,
                show occCount cycleStarts (SEv.startSvc Svc.emoji) = 1 from rfl]
              exact Nat.le_add_right 1 _
            · simp only [schedule_tasks, if_neg hr2, if_neg hall2]
              decide
        unfold restartOccurred
        simp only [hst]
        rw [occCount_append,
          show occCount cycleStarts (SEv.startSvc Svc.emoji) = 1 from rfl]
        omega
    · simp only [schedule_tasks, if_neg hr, if_neg hall]
      constructor
      · intro h
        exact absurd h (by decide)
      · intro h
        exact absurd h hall

/-- Claim C10: if some service task raises, the exception propagates out of
`schedule_tasks` (the gather re-raises) and the loop never re-enters; the
cohort is restarted only when the first iteration's three services all
return without raising. -/
theorem c10_service_exception (c : Cycle) (rest : List Cycle) :
    (CycleRaises c →
      (schedule_tasks (c :: rest)).2 = SchedStatus.raised ∧
      (schedule_tasks (c :: rest)).1 = cycleStarts ∧
      ¬ restartOccurred (schedule_tasks (c :: rest)).1) ∧
    (restartOccurred (schedule_tasks (c :: rest)).1 → CycleAllRet c) := by
  constructor
  · intro hr
    have hst : schedule_tasks (c :: rest) = (cycleStarts, SchedStatus.raised) := by
      simp only [schedule_tasks, if_pos hr]
    rw [hst]
    exact ⟨rfl, rfl, by decide⟩
  · intro hrst
    by_cases hr : CycleRaises c
    · simp only [schedule_tasks, if_pos hr] at hrst
      exact absurd hrst (by decide)
    · by_cases hall : CycleAllRet c
      · exact hall
      · simp only [schedule_tasks, if_neg hr, if_neg hall] at hrst
        exact absurd hrst (by decide)

/-- Witness for C10 on an iteration whose emoji service raises. -/
theorem c10_witness :
    CycleRaises ⟨.raises, .forever, .ret⟩ ∧
    ((schedule_tasks [⟨.raises, .forever, .ret⟩]).2 = SchedStatus.raised ∧
     (schedule_tasks [⟨.raises, .forever, .ret⟩]).1 = cycleStarts ∧
     ¬ restartOccurred (schedule_tasks [⟨.raises, .forever, .ret⟩]).1) :=
  ⟨by decide, (c10_service_exception ⟨.raises, .forever, .ret⟩ []).1 (by decide)⟩

/-- Counterexample to claim C1: it is NOT the case that in every execution
of `main` the traffic-accepting services start only after handler
registration completed.  `main` gathers `initialize` and `schedule_tasks`
with no synchronisation, so the execution in which the host loop starts its
services right after the bootstrap task's first suspension is a valid
interleaving — and there both servers start long before registration. -/
theorem c1_counterexample :
    ¬ ∀ (fails : Action → Bool) (t0 t1 : Int) (cycles : List Cycle) (zs : List MEv),
        mainExecution fails t0 t1 cycles zs → noEarlyServe zs = true := by
  intro h
  exact absurd (h noFail 0 0 [foreverCycle] earlyServeExec (by decide)) (by decide)

/-- Claim C1 as amended: `main` starts the host loop concurrently with
bootstrap and enforces no prerequisite ordering — there exists an execution
of `main` in which the inbound and control servers' run loops start before
message-handler registration has completed. -/
theorem c1_amended_thm :
    ∃ zs : List MEv, mainExecution noFail 0 0 [foreverCycle] zs ∧
      noEarlyServe zs = false :=
  ⟨earlyServeExec, by decide, by decide⟩

end MaiBot
